import Mathlib

/-!
Shallow embedding of the conversation-memory core of the repository:
`MemoryService.optimize_conversation_history` (src/services/memory.py),
`ConversationService.summarize_memory` (src/services/conversation.py) and
`MongoMemoryRepository.update_summary` (src/repositories/memory.py),
together with proofs of the specified properties.
-/

set_option autoImplicit false

namespace SttMemory

/-- A Python message dict as consumed by `optimize_conversation_history`:
`msg.get("role")` and `msg.get("content", "")` are the only accesses, so the
dict is modelled by its optional `role` and `content` fields. -/
structure MsgDict where
  role : Option String
  content : Option String
deriving DecidableEq

/-- One entry of the input list: either not a dict (skipped with a warning
by the `isinstance(msg, dict)` check) or a message dict. -/
inductive PyEntry where
  | nonDict
  | dict (msg : MsgDict)
deriving DecidableEq

/-- The whole argument `messages`: `None`, some non-list value, or a list of
entries, matching the defensive checks at the top of
`optimize_conversation_history`. -/
inductive PyInput where
  | noneInput
  | nonList
  | list (entries : List PyEntry)
deriving DecidableEq

/-- Python substring test `pat in s` on strings (code-point wise). -/
def containsSubstr (s pat : String) : Bool :=
  decide (pat.data <:+: s.data)

/-- The literal summary marker checked for in system messages. -/
def summaryMarker : String := "Previous conversation summary:"

/-- The partition loop of `optimize_conversation_history`: dict entries with
role `"system"` go to the first list, roles `"user"`/`"assistant"` to the
second, anything else (including non-dicts and a missing role) is skipped.
Input order is preserved within each part. -/
def partitionMsgs : List PyEntry → List MsgDict × List MsgDict
  | [] => ([], [])
  | PyEntry.nonDict :: rest => partitionMsgs rest
  | PyEntry.dict m :: rest =>
    if m.role = some "system" then
      (m :: (partitionMsgs rest).1, (partitionMsgs rest).2)
    else if m.role = some "user" ∨ m.role = some "assistant" then
      ((partitionMsgs rest).1, m :: (partitionMsgs rest).2)
    else partitionMsgs rest

/-- The marker scan over system messages:
`content = msg.get("content", ""); if content and "Previous conversation summary:" in content`. -/
def hasSummaryMarker (sys : List MsgDict) : Bool :=
  sys.any (fun m =>
    let c := m.content.getD ""
    decide (c ≠ "") && containsSubstr c summaryMarker)

/-- Python slice `l[-n:]`. Note that for `n = 0` this is `l[0:] = l`
(since `-0 == 0`), not the empty list; for `n ≥ 1` it is the last
`min n (length l)` elements. -/
def pyTakeLast {α : Type} (l : List α) (n : Nat) : List α :=
  if n = 0 then l else l.drop (l.length - n)

/-- The snippet truncation:
`if len(last_msg) > 100: last_msg = last_msg[:97] + "..."`.
Python string slicing counts code points, i.e. `Char`s. -/
def truncateSnippet (s : String) : String :=
  if 100 < s.length then String.mk (s.data.take 97) ++ "..." else s

/-- Model of `older_messages[-1].get('content', '')`, total version (the code only
evaluates it when `older_messages` is non-empty). -/
def lastContentD (older : List MsgDict) : String :=
  match older.getLast? with
  | some m => m.content.getD ""
  | none => ""

/-- The configuration the service reads from settings:
`MEMORY_MAX_MESSAGES` and `MEMORY_SUMMARIZE_THRESHOLD` (counts). -/
structure MemoryConfig where
  maxMessages : Nat
  summarizeThreshold : Nat
deriving DecidableEq

/-- The fallback summary message synthesized in the no-marker branch:
`{"role": "system", "content": f"Previous conversation with {total_msgs}
messages. Most recent topic: {last_msg}"}`. -/
def fallbackMessage (older : List MsgDict) : MsgDict :=
  { role := some "system",
    content := some ("Previous conversation with " ++ toString older.length ++
      " messages. Most recent topic: " ++ truncateSnippet (lastContentD older)) }

/-- Model of `split_point = max(0, len(conversation) - self.memory_max_messages + 2)`
(`Int.toNat` of a negative value is `0`, which is exactly the `max(0, ·)`). -/
def splitPoint (cfg : MemoryConfig) (conversation : List MsgDict) : Nat :=
  ((conversation.length : Int) - (cfg.maxMessages : Int) + 2).toNat

/-- The part of `optimize_conversation_history` after the defensive checks
and the partition loop (src/services/memory.py lines 71-107), as a function
of the partitioned `system_messages` and `conversation` lists. -/
def optimizeBody (cfg : MemoryConfig)
    (system_messages conversation : List MsgDict) : List MsgDict :=
  if conversation.length ≤ cfg.maxMessages then
    system_messages ++ conversation
  else if hasSummaryMarker system_messages then
    system_messages ++ pyTakeLast conversation (min cfg.maxMessages conversation.length)
  else
    if conversation.take (splitPoint cfg conversation) ≠ [] ∧
        cfg.summarizeThreshold ≤ (conversation.take (splitPoint cfg conversation)).length then
      system_messages ++
        fallbackMessage (conversation.take (splitPoint cfg conversation)) ::
          conversation.drop (splitPoint cfg conversation)
    else
      system_messages ++ conversation.drop (splitPoint cfg conversation)

/-- Model of `MemoryService.optimize_conversation_history`, translated branch by
branch from src/services/memory.py (lines 42-107): defensive checks, the
partition loop, then `optimizeBody` on the two parts. -/
def optimize_conversation_history (cfg : MemoryConfig) : PyInput → List MsgDict
  | PyInput.noneInput => []
  | PyInput.nonList => []
  | PyInput.list entries =>
    if entries.length = 0 then []
    else optimizeBody cfg (partitionMsgs entries).1 (partitionMsgs entries).2

/-- Entries the partition loop keeps: dicts whose role is one of the three
recognized roles. -/
def validEntry : PyEntry → Bool
  | PyEntry.nonDict => false
  | PyEntry.dict m =>
    decide (m.role = some "system" ∨ m.role = some "user" ∨ m.role = some "assistant")

/-- A message whose role is one of the three recognized roles. -/
def roleRecognized (m : MsgDict) : Bool :=
  decide (m.role = some "system" ∨ m.role = some "user" ∨ m.role = some "assistant")

/-- Number of system messages the partition extracts from the input
(`0` for the non-list inputs). -/
def sysCount : PyInput → Nat
  | PyInput.noneInput => 0
  | PyInput.nonList => 0
  | PyInput.list entries => (partitionMsgs entries).1.length

/-! ## Summarizer: `MongoMemoryRepository.update_summary` and
`ConversationService.summarize_memory` -/

/-- A document of the memory collection, as written by `update_summary`. -/
structure SummaryRow where
  conversation_id : String
  summary : String
  created_at : String
  updated_at : String
deriving DecidableEq

/-- Model of `collection.find_one({"conversation_id": cid})`: the first document whose
`conversation_id` equals `cid`. -/
def findRow (rows : List SummaryRow) (cid : String) : Option SummaryRow :=
  rows.find? (fun r => decide (r.conversation_id = cid))

/-- Effect of `collection.update_one({"conversation_id": cid}, {"$set":
{"summary": text, "updated_at": ts}})` on the stored documents: the first
matching document gets the two fields set, the rest are untouched. -/
def updateFirst (rows : List SummaryRow) (cid text ts : String) : List SummaryRow :=
  match rows with
  | [] => []
  | r :: rest =>
    if r.conversation_id = cid then
      { r with summary := text, updated_at := ts } :: rest
    else r :: updateFirst rest cid text ts

/-- Model of `result.modified_count > 0` for that `update_one`: MongoDB counts a
document as modified only if the `$set` actually changed it, i.e. the first
matching document differed in `summary` or `updated_at`. -/
def updateOneModified (rows : List SummaryRow) (cid text ts : String) : Bool :=
  match rows with
  | [] => false
  | r :: rest =>
    if r.conversation_id = cid then decide (r.summary ≠ text) || decide (r.updated_at ≠ ts)
    else updateOneModified rest cid text ts

/-- Model of `MongoMemoryRepository.update_summary` (src/repositories/memory.py,
lines 73-112): look the row up; if present, `update_one` with `$set` and
return `modified_count > 0`; otherwise `insert_one` a fresh row (with
`created_at = updated_at = ts`) and return `acknowledged` (true). `ts` is
the `datetime.utcnow().isoformat()` taken at the start of the call. -/
def update_summary (rows : List SummaryRow) (cid text ts : String) :
    Bool × List SummaryRow :=
  match findRow rows cid with
  | some _ => (updateOneModified rows cid text ts, updateFirst rows cid text ts)
  | none => (true, rows ++ [⟨cid, text, ts, ts⟩])

/-- A stored message as returned by `message_repo.get_by_conversation_id`;
`summarize_memory` reads `msg["role"]` and `msg["content"]`. -/
structure SMsg where
  role : String
  content : String
deriving DecidableEq

/-- The value returned by `external_api_client.call_openai_api`:
`result["success"]` and, on success, `result["message"]`. -/
structure ApiResult where
  success : Bool
  message : String
deriving DecidableEq

/-- The state `summarize_memory` can read and write for one call: the memory
collection and the target conversation's `memory_optimized` flag. -/
structure MemState where
  rows : List SummaryRow
  memoryOptimized : Bool
deriving DecidableEq

/-- The environment of one `summarize_memory` call: whether an external API
client is configured, the `MEMORY_ENABLED` / `MEMORY_SUMMARIZE_THRESHOLD`
settings, the messages fetched for the conversation, the outcome of the
completion call (`none` models the call raising an exception, which the
catch-all `except` turns into `return False`), the timestamp the repository
generates for the upsert, and whether the subsequent
`conversation_repo.update` write of the flag succeeds (that repository
catches its own exceptions and returns a boolean, which the service
discards). -/
structure SummarizeEnv where
  hasClient : Bool
  memoryEnabled : Bool
  threshold : Nat
  messages : List SMsg
  apiOutcome : Option ApiResult
  timestamp : String
  flagWriteOk : Bool
deriving DecidableEq

/-- The observable outcome of one `summarize_memory` call: the returned
boolean, whether the completion capability was invoked, and the state after
the call. -/
structure SummarizeResult where
  ret : Bool
  apiCalled : Bool
  state : MemState
deriving DecidableEq

/-- Python `str.strip()`: drop whitespace from both ends (code-point
wise). -/
def pyStrip (s : String) : String :=
  String.mk (((s.data.dropWhile Char.isWhitespace).reverse.dropWhile
    Char.isWhitespace).reverse)

/-- Model of `result["message"].strip()` of a successful completion call (`""` when
there was no successful result; only read in that case). -/
def successText (env : SummarizeEnv) : String :=
  match env.apiOutcome with
  | some r => pyStrip r.message
  | none => ""

/-- Model of `ConversationService.summarize_memory` (src/services/conversation.py,
lines 332-406), translated branch by branch. The repositories catch their
own database errors internally and never raise, so the exception path
modelled here is the completion call raising (`apiOutcome = none`). -/
def summarize_memory (env : SummarizeEnv) (cid : String) (st : MemState) :
    SummarizeResult :=
  if !env.hasClient || !env.memoryEnabled then ⟨false, false, st⟩
  else if env.messages.length < env.threshold then ⟨false, false, st⟩
  else if (env.messages.filter (fun m => decide (m.role ≠ "system"))).length < env.threshold then
    ⟨false, false, st⟩
  else
    match env.apiOutcome with
    | none => ⟨false, true, st⟩
    | some result =>
      if result.success then
        if (update_summary st.rows cid (pyStrip result.message) env.timestamp).1 then
          ⟨true, true,
            ⟨(update_summary st.rows cid (pyStrip result.message) env.timestamp).2,
              if env.flagWriteOk then true else st.memoryOptimized⟩⟩
        else
          ⟨false, true,
            ⟨(update_summary st.rows cid (pyStrip result.message) env.timestamp).2,
              st.memoryOptimized⟩⟩
      else ⟨false, true, st⟩

/-- The conditions under which `summarize_memory` reaches the upsert: client
configured, memory enabled, both threshold checks passed, completion call
returned success. -/
def summarizeReady (env : SummarizeEnv) : Bool :=
  env.hasClient && env.memoryEnabled
    && decide (env.threshold ≤ env.messages.length)
    && decide (env.threshold ≤ (env.messages.filter (fun m => decide (m.role ≠ "system"))).length)
    && (match env.apiOutcome with
        | some r => r.success
        | none => false)

/-- The completion call failed from the service's point of view: it raised
(and was caught) or reported `success = False`. -/
def apiCallFailed (env : SummarizeEnv) : Bool :=
  match env.apiOutcome with
  | none => true
  | some r => !r.success

/-- At most one summary row per `conversation_id` (the collection has a
unique index on that field). -/
@[reducible] def uniquePerId (rows : List SummaryRow) : Prop :=
  (rows.map (fun r => r.conversation_id)).Nodup

/-- The summary rows stored for one conversation. -/
def rowsFor (rows : List SummaryRow) (cid : String) : List SummaryRow :=
  rows.filter (fun r => decide (r.conversation_id = cid))

/-! ## Helper lemmas -/

lemma optimize_list_eq_body (cfg : MemoryConfig) (entries : List PyEntry) :
    optimize_conversation_history cfg (PyInput.list entries) =
      optimizeBody cfg (partitionMsgs entries).1 (partitionMsgs entries).2 := by
  by_cases h : entries.length = 0
  · have he : entries = [] := List.length_eq_zero.mp h
    subst he
    simp [optimize_conversation_history, optimizeBody, partitionMsgs]
  · simp [optimize_conversation_history, h]

lemma partitionMsgs_roles (entries : List PyEntry) :
    (∀ m ∈ (partitionMsgs entries).1, m.role = some "system") ∧
    (∀ m ∈ (partitionMsgs entries).2, m.role = some "user" ∨ m.role = some "assistant") := by
  induction entries with
  | nil => simp [partitionMsgs]
  | cons e rest ih =>
    cases e with
    | nonDict => simpa [partitionMsgs] using ih
    | dict m =>
      by_cases h1 : m.role = some "system"
      · refine ⟨?_, ?_⟩
        · intro x hx
          rw [partitionMsgs] at hx
          simp only [if_pos h1, List.mem_cons] at hx
          rcases hx with hx | hx
          · subst hx; exact h1
          · exact ih.1 x hx
        · intro x hx
          rw [partitionMsgs] at hx
          simp only [if_pos h1] at hx
          exact ih.2 x hx
      · by_cases h2 : m.role = some "user" ∨ m.role = some "assistant"
        · refine ⟨?_, ?_⟩
          · intro x hx
            rw [partitionMsgs] at hx
            simp only [if_neg h1, if_pos h2] at hx
            exact ih.1 x hx
          · intro x hx
            rw [partitionMsgs] at hx
            simp only [if_neg h1, if_pos h2, List.mem_cons] at hx
            rcases hx with hx | hx
            · subst hx; exact h2
            · exact ih.2 x hx
        · refine ⟨?_, ?_⟩
          · intro x hx
            rw [partitionMsgs] at hx
            simp only [if_neg h1, if_neg h2] at hx
            exact ih.1 x hx
          · intro x hx
            rw [partitionMsgs] at hx
            simp only [if_neg h1, if_neg h2] at hx
            exact ih.2 x hx

lemma partitionMsgs_filter_valid (entries : List PyEntry) :
    partitionMsgs (entries.filter validEntry) = partitionMsgs entries := by
  induction entries with
  | nil => rfl
  | cons e rest ih =>
    cases e with
    | nonDict => simpa [List.filter_cons, validEntry, partitionMsgs] using ih
    | dict m =>
      by_cases h1 : m.role = some "system"
      · have hv : validEntry (PyEntry.dict m) = true := by simp [validEntry, h1]
        simp [List.filter_cons, hv, partitionMsgs, h1, ih]
      · by_cases h2 : m.role = some "user" ∨ m.role = some "assistant"
        · have hv : validEntry (PyEntry.dict m) = true := by
            simp only [validEntry, decide_eq_true_eq]
            tauto
          simp [List.filter_cons, hv, partitionMsgs, h1, h2, ih]
        · have hv : validEntry (PyEntry.dict m) = false := by
            simp only [validEntry, decide_eq_false_iff_not]
            tauto
          simp [List.filter_cons, hv, partitionMsgs, h1, h2, ih]

lemma pyTakeLast_subset {α : Type} (l : List α) (n : Nat) : pyTakeLast l n ⊆ l := by
  unfold pyTakeLast
  split
  · exact List.Subset.refl l
  · exact List.drop_subset _ l

lemma optimizeBody_mem (cfg : MemoryConfig) (sys conv : List MsgDict) :
    ∀ m ∈ optimizeBody cfg sys conv,
      m ∈ sys ∨ m ∈ conv ∨ m.role = some "system" := by
  intro m hm
  unfold optimizeBody at hm
  split at hm
  · rcases List.mem_append.mp hm with h | h
    · exact Or.inl h
    · exact Or.inr (Or.inl h)
  · split at hm
    · rcases List.mem_append.mp hm with h | h
      · exact Or.inl h
      · exact Or.inr (Or.inl (pyTakeLast_subset _ _ h))
    · split at hm
      · rcases List.mem_append.mp hm with h | h
        · exact Or.inl h
        · rcases List.mem_cons.mp h with h | h
          · subst h
            exact Or.inr (Or.inr rfl)
          · exact Or.inr (Or.inl (List.drop_subset _ conv h))
      · rcases List.mem_append.mp hm with h | h
        · exact Or.inl h
        · exact Or.inr (Or.inl (List.drop_subset _ conv h))

lemma partitionMsgs_conv_map (convPart : List MsgDict)
    (hconv : ∀ m ∈ convPart, m.role = some "user" ∨ m.role = some "assistant") :
    partitionMsgs (convPart.map PyEntry.dict) = ([], convPart) := by
  induction convPart with
  | nil => rfl
  | cons m rest ih =>
    have hm := hconv m (List.mem_cons_self m rest)
    have hns : ¬ m.role = some "system" := by
      rcases hm with h | h <;> simp [h]
    simp [partitionMsgs, hns, hm, ih (fun x hx => hconv x (List.mem_cons_of_mem m hx))]

lemma partitionMsgs_sys_append (sysPart : List MsgDict) (rest : List PyEntry)
    (hsys : ∀ m ∈ sysPart, m.role = some "system") :
    partitionMsgs (sysPart.map PyEntry.dict ++ rest) =
      (sysPart ++ (partitionMsgs rest).1, (partitionMsgs rest).2) := by
  induction sysPart with
  | nil => simp
  | cons m tail ih =>
    have hm : m.role = some "system" := hsys m (List.mem_cons_self m tail)
    simp [partitionMsgs, hm, ih (fun x hx => hsys x (List.mem_cons_of_mem m hx))]

lemma summarizeReady_spec (env : SummarizeEnv) (h : summarizeReady env = true) :
    env.hasClient = true ∧ env.memoryEnabled = true ∧
    env.threshold ≤ env.messages.length ∧
    env.threshold ≤ (env.messages.filter (fun m => decide (m.role ≠ "system"))).length ∧
    ∃ r, env.apiOutcome = some r ∧ r.success = true := by
  unfold summarizeReady at h
  cases ho : env.apiOutcome with
  | none =>
    rw [ho] at h
    simp at h
  | some r =>
    rw [ho] at h
    simp only [Bool.and_eq_true, decide_eq_true_eq] at h
    exact ⟨h.1.1.1.1, h.1.1.1.2, h.1.1.2, h.1.2, r, rfl, h.2⟩

lemma summarize_memory_ready (env : SummarizeEnv) (cid : String) (st : MemState)
    (h : summarizeReady env = true) :
    summarize_memory env cid st =
      (if (update_summary st.rows cid (successText env) env.timestamp).1 then
        ⟨true, true,
          ⟨(update_summary st.rows cid (successText env) env.timestamp).2,
            if env.flagWriteOk then true else st.memoryOptimized⟩⟩
      else
        ⟨false, true,
          ⟨(update_summary st.rows cid (successText env) env.timestamp).2,
            st.memoryOptimized⟩⟩) := by
  obtain ⟨h1, h2, h3, h4, r, ho, hsucc⟩ := summarizeReady_spec env h
  unfold summarize_memory
  rw [h1, h2]
  simp only [Bool.not_true, Bool.or_self, Bool.false_eq_true, if_false]
  rw [if_neg (by omega), if_neg (by omega), ho]
  simp [hsucc, successText, ho]

lemma summarize_memory_rows (env : SummarizeEnv) (cid : String) (st : MemState) :
    (summarize_memory env cid st).state.rows = st.rows ∨
    (summarize_memory env cid st).state.rows =
      (update_summary st.rows cid (successText env) env.timestamp).2 := by
  unfold summarize_memory
  split
  · exact Or.inl rfl
  · split
    · exact Or.inl rfl
    · split
      · exact Or.inl rfl
      · split
        · exact Or.inl rfl
        · rename_i r _
          split
          · have : successText env = pyStrip r.message := by
              rename_i ho _
              simp [successText, ho]
            rw [this]
            split
            · exact Or.inr rfl
            · exact Or.inr rfl
          · exact Or.inl rfl

lemma rowsFor_eq_nil_of_not_mem (rows : List SummaryRow) (cid : String)
    (h : cid ∉ rows.map (fun r => r.conversation_id)) : rowsFor rows cid = [] := by
  induction rows with
  | nil => rfl
  | cons r rest ih =>
    simp only [List.map_cons, List.mem_cons, not_or] at h
    have hr : ¬ r.conversation_id = cid := fun hc => h.1 hc.symm
    simp only [rowsFor, List.filter_cons, decide_eq_true_eq]
    rw [if_neg (by simpa using hr)]
    exact ih h.2

lemma findRow_none_not_mem (rows : List SummaryRow) (cid : String)
    (h : findRow rows cid = none) : cid ∉ rows.map (fun r => r.conversation_id) := by
  intro hmem
  obtain ⟨r, hr, hid⟩ := List.mem_map.mp hmem
  have := List.find?_eq_none.mp h r hr
  simp [hid] at this

lemma findRow_mem (rows : List SummaryRow) (cid : String) (r : SummaryRow)
    (h : findRow rows cid = some r) :
    r ∈ rows ∧ r.conversation_id = cid := by
  refine ⟨List.mem_of_find?_eq_some h, ?_⟩
  have := List.find?_some h
  simpa using this

lemma updateFirst_rowsFor (rows : List SummaryRow) (cid t ts : String)
    (hu : uniquePerId rows) (hmem : cid ∈ rows.map (fun r => r.conversation_id)) :
    (rowsFor (updateFirst rows cid t ts) cid).map (fun r => r.summary) = [t] := by
  induction rows with
  | nil => simp at hmem
  | cons r rest ih =>
    unfold uniquePerId at hu
    simp only [List.map_cons, List.nodup_cons] at hu
    by_cases hr : r.conversation_id = cid
    · have hnot : cid ∉ rest.map (fun x => x.conversation_id) := by
        rw [← hr]; exact hu.1
      have hnil : List.filter (fun x => decide (x.conversation_id = cid)) rest = [] := by
        simpa [rowsFor] using rowsFor_eq_nil_of_not_mem rest cid hnot
      simp [updateFirst, hr, rowsFor, List.filter_cons, hnil]
    · have hmem' : cid ∈ rest.map (fun x => x.conversation_id) := by
        simp only [List.map_cons, List.mem_cons] at hmem
        rcases hmem with h | h
        · exact absurd h.symm hr
        · exact h
      have := ih hu.2 hmem'
      simpa [updateFirst, hr, rowsFor, List.filter_cons] using this

lemma update_summary_rowsFor (rows : List SummaryRow) (cid t ts : String)
    (hu : uniquePerId rows) :
    (rowsFor (update_summary rows cid t ts).2 cid).map (fun r => r.summary) = [t] := by
  unfold update_summary
  cases hf : findRow rows cid with
  | none =>
    have hnot := findRow_none_not_mem rows cid hf
    have hnil := rowsFor_eq_nil_of_not_mem rows cid hnot
    unfold rowsFor at hnil ⊢
    simp [List.filter_append, hnil]
  | some r =>
    have hmem : cid ∈ rows.map (fun x => x.conversation_id) := by
      obtain ⟨hr, hid⟩ := findRow_mem rows cid r hf
      exact List.mem_map.mpr ⟨r, hr, hid⟩
    exact updateFirst_rowsFor rows cid t ts hu hmem

lemma updateFirst_map_id (rows : List SummaryRow) (cid t ts : String) :
    (updateFirst rows cid t ts).map (fun r => r.conversation_id) =
      rows.map (fun r => r.conversation_id) := by
  induction rows with
  | nil => rfl
  | cons r rest ih =>
    by_cases hr : r.conversation_id = cid <;> simp [updateFirst, hr, ih]

lemma update_summary_unique (rows : List SummaryRow) (cid t ts : String)
    (hu : uniquePerId rows) : uniquePerId (update_summary rows cid t ts).2 := by
  unfold update_summary
  cases hf : findRow rows cid with
  | some r => simpa [uniquePerId, updateFirst_map_id] using hu
  | none =>
    have hnot := findRow_none_not_mem rows cid hf
    unfold uniquePerId at hu ⊢
    simp [List.nodup_append, hu, hnot]

lemma truncateSnippet_length (s : String) (h : 100 < s.length) :
    (truncateSnippet s).length = 100 := by
  unfold truncateSnippet
  rw [if_pos h]
  have hd : s.length = s.data.length := rfl
  show (s.data.take 97 ++ "...".data).length = 100
  rw [List.length_append, List.length_take]
  have h3 : "...".data.length = 3 := rfl
  rw [h3]
  omega

/-! ## Claim theorems -/

/-- C5: `optimize_conversation_history` never raises (it is a total
function); a `None` or non-list input yields the empty list; non-dict
entries and entries with an unrecognized role (e.g. `"moderator"`) are
skipped and absent from the output — the output equals the output on the
input with them removed, and every output message carries one of the
recognized roles. -/
theorem optimize_fail_open (cfg : MemoryConfig) (entries : List PyEntry) :
    optimize_conversation_history cfg PyInput.noneInput = [] ∧
    optimize_conversation_history cfg PyInput.nonList = [] ∧
    optimize_conversation_history cfg (PyInput.list entries) =
      optimize_conversation_history cfg (PyInput.list (entries.filter validEntry)) ∧
    (optimize_conversation_history cfg (PyInput.list entries)).all roleRecognized = true := by
  refine ⟨rfl, rfl, ?_, ?_⟩
  · rw [optimize_list_eq_body, optimize_list_eq_body, partitionMsgs_filter_valid]
  · rw [List.all_eq_true]
    intro m hm
    rw [optimize_list_eq_body] at hm
    rcases optimizeBody_mem cfg _ _ m hm with h | h | h
    · have := (partitionMsgs_roles entries).1 m h
      simp [roleRecognized, this]
    · have := (partitionMsgs_roles entries).2 m h
      rcases this with h' | h' <;> simp [roleRecognized, h']
    · simp [roleRecognized, h]

/-- C6: when the conversation's non-system message count is strictly below
the summarize threshold, `summarize_memory` returns `false` and never
invokes the completion capability. -/
theorem summarize_threshold_gate (env : SummarizeEnv) (cid : String) (st : MemState)
    (h : (env.messages.filter (fun m => decide (m.role ≠ "system"))).length < env.threshold) :
    (summarize_memory env cid st).ret = false ∧
    (summarize_memory env cid st).apiCalled = false := by
  unfold summarize_memory
  by_cases h1 : (!env.hasClient || !env.memoryEnabled) = true
  · rw [if_pos h1]
    exact ⟨rfl, rfl⟩
  · rw [if_neg h1]
    by_cases h2 : env.messages.length < env.threshold
    · rw [if_pos h2]
      exact ⟨rfl, rfl⟩
    · rw [if_neg h2, if_pos h]
      exact ⟨rfl, rfl⟩

/-- Witness for C6 at a concrete input: two messages of which one is
conversational, threshold 5. -/
theorem summarize_threshold_gate_witness :
    (([⟨"system", "sys"⟩, ⟨"user", "hi"⟩] : List SMsg).filter
        (fun m => decide (m.role ≠ "system"))).length < 5 ∧
    ((summarize_memory ⟨true, true, 5, [⟨"system", "sys"⟩, ⟨"user", "hi"⟩],
        some ⟨true, "text"⟩, "t1", true⟩ "c1" ⟨[], false⟩).ret = false ∧
      (summarize_memory ⟨true, true, 5, [⟨"system", "sys"⟩, ⟨"user", "hi"⟩],
        some ⟨true, "text"⟩, "t1", true⟩ "c1" ⟨[], false⟩).apiCalled = false) :=
  ⟨by decide, summarize_threshold_gate _ "c1" _ (by decide)⟩

/-- C7: `summarize_memory` never raises (it is a total function); with no
completion client or the memory feature disabled it returns `false` as a
no-op, and whenever the completion call fails or raises it returns `false`
with the state — summary rows and `memory_optimized` flag — unchanged. -/
theorem summarize_failure_no_partial_writes (env : SummarizeEnv) (cid : String)
    (st : MemState)
    (h : env.hasClient = false ∨ env.memoryEnabled = false ∨ apiCallFailed env = true) :
    (summarize_memory env cid st).ret = false ∧
    (summarize_memory env cid st).state = st := by
  rcases h with h | h | h
  · simp [summarize_memory, h]
  · simp [summarize_memory, h]
  · unfold summarize_memory
    split
    · exact ⟨rfl, rfl⟩
    · split
      · exact ⟨rfl, rfl⟩
      · split
        · exact ⟨rfl, rfl⟩
        · cases ho : env.apiOutcome with
          | none => simp [ho]
          | some r =>
            have hr : r.success = false := by simpa [apiCallFailed, ho] using h
            simp [ho, hr]

/-- Witness for C7 at a concrete input: enabled, client configured, enough
messages, but the completion call reports failure; a prior summary row and
a set flag survive unchanged. -/
theorem summarize_failure_no_partial_writes_witness :
    apiCallFailed ⟨true, true, 1, [⟨"user", "hi"⟩], some ⟨false, ""⟩, "t1", true⟩ = true ∧
    ((summarize_memory ⟨true, true, 1, [⟨"user", "hi"⟩], some ⟨false, ""⟩, "t1", true⟩ "c1"
        ⟨[⟨"c1", "old", "t0", "t0"⟩], true⟩).ret = false ∧
      (summarize_memory ⟨true, true, 1, [⟨"user", "hi"⟩], some ⟨false, ""⟩, "t1", true⟩ "c1"
        ⟨[⟨"c1", "old", "t0", "t0"⟩], true⟩).state = ⟨[⟨"c1", "old", "t0", "t0"⟩], true⟩) :=
  ⟨by decide,
    summarize_failure_no_partial_writes _ "c1" _ (Or.inr (Or.inr (by decide)))⟩

/-- C10: when the completion call succeeds and the summary upsert reports
success, `summarize_memory` returns `true` whatever the discarded flag
write does: the rows are the upsert result, while `memory_optimized` is set
only if that write succeeded (and keeps its prior value otherwise). -/
theorem summarize_true_despite_flag_write (env : SummarizeEnv) (cid : String)
    (st : MemState)
    (hready : summarizeReady env = true)
    (hup : (update_summary st.rows cid (successText env) env.timestamp).1 = true) :
    (summarize_memory env cid st).ret = true ∧
    (summarize_memory env cid st).state.rows =
      (update_summary st.rows cid (successText env) env.timestamp).2 ∧
    (summarize_memory env cid st).state.memoryOptimized =
      (if env.flagWriteOk then true else st.memoryOptimized) := by
  rw [summarize_memory_ready env cid st hready, if_pos hup]
  exact ⟨rfl, rfl, rfl⟩

/-- Witness for C10 at a concrete input with a failing flag write: the call
still returns `true`, the summary row is persisted, the flag stays unset. -/
theorem summarize_true_despite_flag_write_witness :
    summarizeReady ⟨true, true, 1, [⟨"user", "hi"⟩], some ⟨true, "sum"⟩, "t1", false⟩ = true ∧
    (update_summary [] "c1"
        (successText ⟨true, true, 1, [⟨"user", "hi"⟩], some ⟨true, "sum"⟩, "t1", false⟩)
        "t1").1 = true ∧
    ((summarize_memory ⟨true, true, 1, [⟨"user", "hi"⟩], some ⟨true, "sum"⟩, "t1", false⟩
        "c1" ⟨[], false⟩).ret = true ∧
      (summarize_memory ⟨true, true, 1, [⟨"user", "hi"⟩], some ⟨true, "sum"⟩, "t1", false⟩
        "c1" ⟨[], false⟩).state.rows =
        (update_summary [] "c1"
          (successText ⟨true, true, 1, [⟨"user", "hi"⟩], some ⟨true, "sum"⟩, "t1", false⟩)
          "t1").2 ∧
      (summarize_memory ⟨true, true, 1, [⟨"user", "hi"⟩], some ⟨true, "sum"⟩, "t1", false⟩
        "c1" ⟨[], false⟩).state.memoryOptimized = (if false then true else false)) :=
  ⟨by decide, by decide,
    summarize_true_despite_flag_write _ "c1" ⟨[], false⟩ (by decide) (by decide)⟩

lemma updateOneModified_eq (rows : List SummaryRow) (cid t ts : String) (r : SummaryRow)
    (h : findRow rows cid = some r) :
    updateOneModified rows cid t ts =
      (decide (r.summary ≠ t) || decide (r.updated_at ≠ ts)) := by
  induction rows with
  | nil => simp [findRow] at h
  | cons x rest ih =>
    by_cases hx : x.conversation_id = cid
    · have hxr : x = r := by
        unfold findRow at h
        rw [List.find?_cons_of_pos _ (by simpa using hx)] at h
        exact Option.some.inj h
      subst hxr
      simp [updateOneModified, hx]
    · have h' : findRow rest cid = some r := by
        unfold findRow at h ⊢
        rwa [List.find?_cons_of_neg _ (by simpa using hx)] at h
      simp only [updateOneModified, if_neg hx]
      exact ih h'

/-- C8: the summary store keeps at most one row per conversation id; every
`summarize_memory` call preserves that invariant, and two successive calls
that both reach a successful completion leave exactly one row for the
conversation, holding the text of the second call. -/
theorem summarize_upsert_unique (env1 env2 : SummarizeEnv) (cid : String) (st : MemState)
    (hu : uniquePerId st.rows) :
    uniquePerId (summarize_memory env1 cid st).state.rows ∧
    (summarizeReady env1 = true → summarizeReady env2 = true →
      ((rowsFor (summarize_memory env2 cid
          (summarize_memory env1 cid st).state).state.rows cid).map
            (fun r => r.summary) = [successText env2] ∧
        (rowsFor (summarize_memory env2 cid
          (summarize_memory env1 cid st).state).state.rows cid).length = 1)) := by
  have huniq : ∀ env : SummarizeEnv, ∀ s : MemState, uniquePerId s.rows →
      uniquePerId (summarize_memory env cid s).state.rows := by
    intro env s hs
    rcases summarize_memory_rows env cid s with h | h
    · rw [h]; exact hs
    · rw [h]; exact update_summary_unique _ _ _ _ hs
  refine ⟨huniq env1 st hu, ?_⟩
  intro _h1 h2
  have hu1 : uniquePerId (summarize_memory env1 cid st).state.rows := huniq env1 st hu
  have hrows2 : (summarize_memory env2 cid (summarize_memory env1 cid st).state).state.rows =
      (update_summary (summarize_memory env1 cid st).state.rows cid
        (successText env2) env2.timestamp).2 := by
    rw [summarize_memory_ready env2 cid _ h2]
    by_cases hup : (update_summary (summarize_memory env1 cid st).state.rows cid
        (successText env2) env2.timestamp).1 = true
    · rw [if_pos hup]
    · rw [if_neg hup]
  rw [hrows2]
  have hmap := update_summary_rowsFor _ cid (successText env2) env2.timestamp hu1
  refine ⟨hmap, ?_⟩
  have := congrArg List.length hmap
  simpa using this

/-- Witness for C8: starting from an empty store, two successive successful
calls (texts `"first"` then `"second"`) leave exactly one row for `"c1"`
with the second text. -/
theorem summarize_upsert_unique_witness :
    uniquePerId (MemState.mk [] false).rows ∧
    ((rowsFor (summarize_memory ⟨true, true, 1, [⟨"user", "hi"⟩], some ⟨true, "second"⟩, "t2", true⟩
        "c1" (summarize_memory ⟨true, true, 1, [⟨"user", "hi"⟩], some ⟨true, "first"⟩, "t1", true⟩
          "c1" ⟨[], false⟩).state).state.rows "c1").map (fun r => r.summary) =
      [successText ⟨true, true, 1, [⟨"user", "hi"⟩], some ⟨true, "second"⟩, "t2", true⟩] ∧
      (rowsFor (summarize_memory ⟨true, true, 1, [⟨"user", "hi"⟩], some ⟨true, "second"⟩, "t2", true⟩
        "c1" (summarize_memory ⟨true, true, 1, [⟨"user", "hi"⟩], some ⟨true, "first"⟩, "t1", true⟩
          "c1" ⟨[], false⟩).state).state.rows "c1").length = 1) :=
  ⟨by decide,
    (summarize_upsert_unique
      ⟨true, true, 1, [⟨"user", "hi"⟩], some ⟨true, "first"⟩, "t1", true⟩
      ⟨true, true, 1, [⟨"user", "hi"⟩], some ⟨true, "second"⟩, "t2", true⟩
      "c1" ⟨[], false⟩ (by decide)).2 (by decide) (by decide)⟩

/-- C9 counterexample: a stored summary `"s"` (with `updated_at = "t0"`) and
a new summarization producing the identical text `"s"` at fresh timestamp
`"t1"`: the `$set` still changes `updated_at`, so Mongo reports a modified
document, `update_summary` returns `true`, and `summarize_memory` returns
`true` and sets the flag — contrary to the claim that identical text makes
them return `false`. -/
theorem summarize_identical_text_counterexample :
    (update_summary [⟨"c1", "s", "t0", "t0"⟩] "c1" "s" "t1").1 = true ∧
    (summarize_memory ⟨true, true, 1, [⟨"user", "hi"⟩], some ⟨true, "s"⟩, "t1", true⟩ "c1"
      ⟨[⟨"c1", "s", "t0", "t0"⟩], false⟩).ret = true ∧
    (summarize_memory ⟨true, true, 1, [⟨"user", "hi"⟩], some ⟨true, "s"⟩, "t1", true⟩ "c1"
      ⟨[⟨"c1", "s", "t0", "t0"⟩], false⟩).state.memoryOptimized = true := by
  refine ⟨by decide, by decide, by decide⟩

/-- C9 (amended): `update_summary` reports no modification — and
`summarize_memory` then returns `false` and leaves the `memory_optimized`
flag at its prior value — exactly when the produced text equals the stored
summary AND the freshly generated timestamp equals the stored `updated_at`;
the store then still holds exactly the produced text. -/
theorem summarize_identical_text_and_timestamp (env : SummarizeEnv) (cid : String)
    (st : MemState) (r : SummaryRow)
    (hu : uniquePerId st.rows)
    (hready : summarizeReady env = true)
    (hfind : findRow st.rows cid = some r)
    (htext : r.summary = successText env)
    (hts : r.updated_at = env.timestamp) :
    (update_summary st.rows cid (successText env) env.timestamp).1 = false ∧
    (summarize_memory env cid st).ret = false ∧
    (summarize_memory env cid st).state.memoryOptimized = st.memoryOptimized ∧
    (rowsFor (summarize_memory env cid st).state.rows cid).map (fun x => x.summary) =
      [successText env] := by
  have hmod : (update_summary st.rows cid (successText env) env.timestamp).1 = false := by
    unfold update_summary
    rw [hfind]
    show updateOneModified st.rows cid (successText env) env.timestamp = false
    rw [updateOneModified_eq st.rows cid _ _ r hfind]
    simp [htext, hts]
  have hnottrue : ¬ (update_summary st.rows cid (successText env) env.timestamp).1 = true := by
    rw [hmod]
    exact Bool.false_ne_true
  have hres : summarize_memory env cid st =
      ⟨false, true, ⟨(update_summary st.rows cid (successText env) env.timestamp).2,
        st.memoryOptimized⟩⟩ := by
    rw [summarize_memory_ready env cid st hready, if_neg hnottrue]
  refine ⟨hmod, ?_, ?_, ?_⟩
  · rw [hres]
  · rw [hres]
  · rw [hres]
    exact update_summary_rowsFor st.rows cid (successText env) env.timestamp hu

/-- Witness for C9 (amended): stored row `("c1", "s", updated_at "t0")`,
new text `"s"`, timestamp `"t0"`: no modification, `false` return, flag and
row untouched. -/
theorem summarize_identical_text_and_timestamp_witness :
    uniquePerId (MemState.mk [⟨"c1", "s", "t0", "t0"⟩] false).rows ∧
    findRow [⟨"c1", "s", "t0", "t0"⟩] "c1" = some ⟨"c1", "s", "t0", "t0"⟩ ∧
    ((update_summary [⟨"c1", "s", "t0", "t0"⟩] "c1"
        (successText ⟨true, true, 1, [⟨"user", "hi"⟩], some ⟨true, "s"⟩, "t0", true⟩)
        "t0").1 = false ∧
      (summarize_memory ⟨true, true, 1, [⟨"user", "hi"⟩], some ⟨true, "s"⟩, "t0", true⟩ "c1"
        ⟨[⟨"c1", "s", "t0", "t0"⟩], false⟩).ret = false ∧
      (summarize_memory ⟨true, true, 1, [⟨"user", "hi"⟩], some ⟨true, "s"⟩, "t0", true⟩ "c1"
        ⟨[⟨"c1", "s", "t0", "t0"⟩], false⟩).state.memoryOptimized = false ∧
      (rowsFor (summarize_memory ⟨true, true, 1, [⟨"user", "hi"⟩], some ⟨true, "s"⟩, "t0", true⟩
          "c1" ⟨[⟨"c1", "s", "t0", "t0"⟩], false⟩).state.rows "c1").map (fun x => x.summary) =
        [successText ⟨true, true, 1, [⟨"user", "hi"⟩], some ⟨true, "s"⟩, "t0", true⟩]) :=
  ⟨by decide, by decide,
    summarize_identical_text_and_timestamp
      ⟨true, true, 1, [⟨"user", "hi"⟩], some ⟨true, "s"⟩, "t0", true⟩ "c1"
      ⟨[⟨"c1", "s", "t0", "t0"⟩], false⟩ ⟨"c1", "s", "t0", "t0"⟩
      (by decide) (by decide) (by decide) (by decide) (by decide)⟩

/-- C1 counterexample: a list of two well-formed messages in which a user
message precedes a system message has conversational count 1 ≤ 15, but the
optimizer re-groups system messages in front, so the output differs from
the input. -/
theorem optimize_short_history_counterexample :
    (partitionMsgs [PyEntry.dict ⟨some "user", some "hi"⟩,
      PyEntry.dict ⟨some "system", some "sys"⟩]).2.length ≤ 15 ∧
    optimize_conversation_history ⟨15, 5⟩
        (PyInput.list [PyEntry.dict ⟨some "user", some "hi"⟩,
          PyEntry.dict ⟨some "system", some "sys"⟩]) ≠
      [⟨some "user", some "hi"⟩, ⟨some "system", some "sys"⟩] := by decide

/-- C1 (amended): on an input list of well-formed messages whose system
messages all precede its conversational messages, with at most
`max_messages` conversational messages, `optimize_conversation_history`
returns the input unchanged (order, content and grouping preserved). -/
theorem optimize_short_history_identity (cfg : MemoryConfig)
    (sysPart convPart : List MsgDict)
    (hsys : ∀ m ∈ sysPart, m.role = some "system")
    (hconv : ∀ m ∈ convPart, m.role = some "user" ∨ m.role = some "assistant")
    (hlen : convPart.length ≤ cfg.maxMessages) :
    optimize_conversation_history cfg
        (PyInput.list ((sysPart ++ convPart).map PyEntry.dict)) =
      sysPart ++ convPart := by
  have hpart : partitionMsgs ((sysPart ++ convPart).map PyEntry.dict) =
      (sysPart, convPart) := by
    rw [List.map_append, partitionMsgs_sys_append _ _ hsys,
      partitionMsgs_conv_map _ hconv]
    simp
  rw [optimize_list_eq_body, hpart]
  show optimizeBody cfg sysPart convPart = sysPart ++ convPart
  unfold optimizeBody
  rw [if_pos hlen]

/-- Witness for C1 (amended) at the spec's exact-boundary scenario shape:
one system message then one user message, `max_messages = 15`. -/
theorem optimize_short_history_identity_witness :
    ([(⟨some "user", some "hi"⟩ : MsgDict)]).length ≤ 15 ∧
    optimize_conversation_history ⟨15, 5⟩
        (PyInput.list (([(⟨some "system", some "be nice"⟩ : MsgDict)] ++
          [(⟨some "user", some "hi"⟩ : MsgDict)]).map PyEntry.dict)) =
      [(⟨some "system", some "be nice"⟩ : MsgDict)] ++
        [(⟨some "user", some "hi"⟩ : MsgDict)] :=
  ⟨by decide,
    optimize_short_history_identity ⟨15, 5⟩ [⟨some "system", some "be nice"⟩]
      [⟨some "user", some "hi"⟩] (by decide) (by decide) (by decide)⟩

/-- C2 counterexample: with `max_messages = 0` and a marker-bearing system
message over a 2-message conversation, the marker-reuse branch computes
`conversation[-0:]` — the whole conversation — so the output holds 2
messages beyond the system ones, exceeding `max_messages + 1 = 1`. -/
theorem optimize_bounded_counterexample :
    ¬ ((optimize_conversation_history ⟨0, 5⟩
        (PyInput.list [PyEntry.dict ⟨some "system", some "Previous conversation summary: x"⟩,
          PyEntry.dict ⟨some "user", some "a"⟩,
          PyEntry.dict ⟨some "user", some "b"⟩])).length ≤
      sysCount (PyInput.list [PyEntry.dict ⟨some "system", some "Previous conversation summary: x"⟩,
          PyEntry.dict ⟨some "user", some "a"⟩,
          PyEntry.dict ⟨some "user", some "b"⟩]) + 0 + 1) := by decide

/-- C2 (amended): for every input and every configuration with
`max_messages ≥ 1`, the optimized output holds at most `max_messages + 1`
messages beyond the original system messages (the retained conversational
tail plus at most one synthetic marker). -/
theorem optimize_bounded (cfg : MemoryConfig) (input : PyInput)
    (hmax : 1 ≤ cfg.maxMessages) :
    (optimize_conversation_history cfg input).length ≤
      sysCount input + cfg.maxMessages + 1 := by
  cases input with
  | noneInput => simp [optimize_conversation_history, sysCount]
  | nonList => simp [optimize_conversation_history, sysCount]
  | list entries =>
    rw [optimize_list_eq_body]
    show (optimizeBody cfg (partitionMsgs entries).1 (partitionMsgs entries).2).length ≤
      (partitionMsgs entries).1.length + cfg.maxMessages + 1
    generalize (partitionMsgs entries).1 = sys
    generalize (partitionMsgs entries).2 = conv
    unfold optimizeBody
    by_cases h1 : conv.length ≤ cfg.maxMessages
    · rw [if_pos h1]
      simp only [List.length_append]
      omega
    · rw [if_neg h1]
      by_cases h2 : hasSummaryMarker sys = true
      · rw [if_pos h2]
        unfold pyTakeLast
        have hmin : min cfg.maxMessages conv.length = cfg.maxMessages := by omega
        rw [hmin, if_neg (by omega)]
        simp only [List.length_append, List.length_drop]
        omega
      · rw [if_neg h2]
        have hsp : splitPoint cfg conv = conv.length + 2 - cfg.maxMessages := by
          unfold splitPoint
          omega
        by_cases h3 : conv.take (splitPoint cfg conv) ≠ [] ∧
            cfg.summarizeThreshold ≤ (conv.take (splitPoint cfg conv)).length
        · rw [if_pos h3]
          simp only [List.length_append, List.length_cons, List.length_drop]
          omega
        · rw [if_neg h3]
          simp only [List.length_append, List.length_drop]
          omega

/-- Witness for C2 (amended) at a concrete input. -/
theorem optimize_bounded_witness :
    1 ≤ 15 ∧
    (optimize_conversation_history ⟨15, 5⟩
        (PyInput.list [PyEntry.dict ⟨some "user", some "hi"⟩])).length ≤
      sysCount (PyInput.list [PyEntry.dict ⟨some "user", some "hi"⟩]) + 15 + 1 :=
  ⟨by decide, optimize_bounded ⟨15, 5⟩ _ (by decide)⟩

/-- C3 counterexample: at `max_messages = 0` with a marker present and one
conversational message, Python's `conversation[-0:]` keeps the whole
conversation instead of the last 0 messages, so the output is not
`system ++ last max_messages`. -/
theorem optimize_marker_reuse_counterexample :
    0 < (partitionMsgs [PyEntry.dict ⟨some "system", some "Previous conversation summary: x"⟩,
      PyEntry.dict ⟨some "user", some "a"⟩]).2.length ∧
    hasSummaryMarker (partitionMsgs
      [PyEntry.dict ⟨some "system", some "Previous conversation summary: x"⟩,
        PyEntry.dict ⟨some "user", some "a"⟩]).1 = true ∧
    optimize_conversation_history ⟨0, 5⟩
        (PyInput.list [PyEntry.dict ⟨some "system", some "Previous conversation summary: x"⟩,
          PyEntry.dict ⟨some "user", some "a"⟩]) ≠
      (partitionMsgs [PyEntry.dict ⟨some "system", some "Previous conversation summary: x"⟩,
        PyEntry.dict ⟨some "user", some "a"⟩]).1 ++
        (partitionMsgs [PyEntry.dict ⟨some "system", some "Previous conversation summary: x"⟩,
          PyEntry.dict ⟨some "user", some "a"⟩]).2.drop
          ((partitionMsgs [PyEntry.dict ⟨some "system", some "Previous conversation summary: x"⟩,
            PyEntry.dict ⟨some "user", some "a"⟩]).2.length - 0) := by decide

/-- C3 (amended): with `max_messages ≥ 1`, when the conversational part
exceeds `max_messages` and some system message contains the literal
`"Previous conversation summary:"`, the output is exactly the original
system messages followed by the last `max_messages` conversational
messages — no fallback marker is synthesized. -/
theorem optimize_marker_reuse (cfg : MemoryConfig) (entries : List PyEntry)
    (hmax : 1 ≤ cfg.maxMessages)
    (hlen : cfg.maxMessages < (partitionMsgs entries).2.length)
    (hmark : hasSummaryMarker (partitionMsgs entries).1 = true) :
    optimize_conversation_history cfg (PyInput.list entries) =
      (partitionMsgs entries).1 ++
        (partitionMsgs entries).2.drop
          ((partitionMsgs entries).2.length - cfg.maxMessages) := by
  rw [optimize_list_eq_body]
  unfold optimizeBody
  rw [if_neg (by omega), if_pos hmark]
  unfold pyTakeLast
  have hmin : min cfg.maxMessages (partitionMsgs entries).2.length = cfg.maxMessages := by
    omega
  rw [hmin, if_neg (by omega)]

/-- Witness for C3 (amended): marker system message plus six user messages,
`max_messages = 5` — the output keeps the marker message and the last 5. -/
theorem optimize_marker_reuse_witness :
    1 ≤ 5 ∧
    5 < (partitionMsgs (PyEntry.dict ⟨some "system", some "Previous conversation summary: x"⟩ ::
      (List.range 6).map (fun i => PyEntry.dict ⟨some "user", some (toString i)⟩))).2.length ∧
    hasSummaryMarker (partitionMsgs
      (PyEntry.dict ⟨some "system", some "Previous conversation summary: x"⟩ ::
        (List.range 6).map (fun i => PyEntry.dict ⟨some "user", some (toString i)⟩))).1 = true ∧
    optimize_conversation_history ⟨5, 3⟩
        (PyInput.list (PyEntry.dict ⟨some "system", some "Previous conversation summary: x"⟩ ::
          (List.range 6).map (fun i => PyEntry.dict ⟨some "user", some (toString i)⟩))) =
      (partitionMsgs (PyEntry.dict ⟨some "system", some "Previous conversation summary: x"⟩ ::
        (List.range 6).map (fun i => PyEntry.dict ⟨some "user", some (toString i)⟩))).1 ++
        (partitionMsgs (PyEntry.dict ⟨some "system", some "Previous conversation summary: x"⟩ ::
          (List.range 6).map (fun i => PyEntry.dict ⟨some "user", some (toString i)⟩))).2.drop
          ((partitionMsgs (PyEntry.dict ⟨some "system", some "Previous conversation summary: x"⟩ ::
            (List.range 6).map (fun i => PyEntry.dict ⟨some "user", some (toString i)⟩))).2.length - 5) :=
  ⟨by decide, by decide, by decide,
    optimize_marker_reuse ⟨5, 3⟩ _ (by decide) (by decide) (by decide)⟩

/-- C4: when the conversational part exceeds `max_messages` and no system
message carries the summary marker, the optimizer splits at
`split_point = max(0, len - max_messages + 2)`; if the older prefix is
non-empty and at least `summarize_threshold` long, the output is the system
messages, one synthetic system message `"Previous conversation with {N}
messages. Most recent topic: {snippet}"` (N the older count, snippet the
last older message's content truncated to its first 97 characters plus
`"..."` when longer than 100 characters), then the recent suffix;
otherwise the older prefix is silently dropped. A truncated snippet is
exactly 100 characters long. -/
theorem optimize_fallback_split (cfg : MemoryConfig) (entries : List PyEntry)
    (hlen : cfg.maxMessages < (partitionMsgs entries).2.length)
    (hmark : hasSummaryMarker (partitionMsgs entries).1 = false) :
    ((partitionMsgs entries).2.take (splitPoint cfg (partitionMsgs entries).2) ≠ [] ∧
        cfg.summarizeThreshold ≤
          ((partitionMsgs entries).2.take (splitPoint cfg (partitionMsgs entries).2)).length →
      optimize_conversation_history cfg (PyInput.list entries) =
        (partitionMsgs entries).1 ++
          ({ role := some "system",
             content := some ("Previous conversation with " ++
               toString ((partitionMsgs entries).2.take
                 (splitPoint cfg (partitionMsgs entries).2)).length ++
               " messages. Most recent topic: " ++
               truncateSnippet (lastContentD ((partitionMsgs entries).2.take
                 (splitPoint cfg (partitionMsgs entries).2)))) } : MsgDict) ::
            (partitionMsgs entries).2.drop (splitPoint cfg (partitionMsgs entries).2)) ∧
    (¬ ((partitionMsgs entries).2.take (splitPoint cfg (partitionMsgs entries).2) ≠ [] ∧
        cfg.summarizeThreshold ≤
          ((partitionMsgs entries).2.take (splitPoint cfg (partitionMsgs entries).2)).length) →
      optimize_conversation_history cfg (PyInput.list entries) =
        (partitionMsgs entries).1 ++
          (partitionMsgs entries).2.drop (splitPoint cfg (partitionMsgs entries).2)) ∧
    (∀ s : String, 100 < s.length → (truncateSnippet s).length = 100) := by
  rw [optimize_list_eq_body]
  unfold optimizeBody
  rw [if_neg (by omega), if_neg (by simp [hmark])]
  refine ⟨?_, ?_, ?_⟩
  · intro hcond
    rw [if_pos hcond]
    rfl
  · intro hcond
    rw [if_neg hcond]
  · intro s hs
    exact truncateSnippet_length s hs

/-- Witness for C4 at the spec's scenario: `max_messages = 5`,
`summarize_threshold = 3`, ten user messages `m0..m9`, no marker:
`split_point = 7`, the fallback summarizes 7 older messages with snippet
`m6`, and the last 3 messages follow. -/
theorem optimize_fallback_split_witness :
    optimize_conversation_history ⟨5, 3⟩
        (PyInput.list ((List.range 10).map
          (fun i => PyEntry.dict ⟨some "user", some ("m" ++ toString i)⟩))) =
      [⟨some "system",
          some "Previous conversation with 7 messages. Most recent topic: m6"⟩,
        ⟨some "user", some "m7"⟩, ⟨some "user", some "m8"⟩,
        ⟨some "user", some "m9"⟩] :=
  ((optimize_fallback_split ⟨5, 3⟩ _ (by decide) (by decide)).1
    (by decide)).trans (by decide)

end SttMemory
